import Mathlib

/-!
Verification development for `bldd` (backward ldd), a C tool that scans a
directory tree for ELF executables depending on caller-supplied shared
libraries and aggregates the matches by architecture, library and executable
path.  The definitions below are a shallow embedding of `bldd.c`:

* the in-memory aggregation store (`Architecture`/`Library` arrays plus the
  `total_execs` counter) becomes `Store`, with C array indices modelled as
  `Int` exactly as the source passes them around (`-1` is the overflow
  sentinel returned by `find_or_add_architecture` / `find_or_add_library`);
  an array access at an index outside the populated range is undefined
  behaviour in the C program and is modelled as `none`;
* library-name normalization and the first-match loop of `get_dependencies`
  become `normalize` / `first_match`;
* the recursive directory walk becomes structural recursion over an
  inductive filesystem tree whose file attributes stand for the answers of
  the external `readelf` collaborator (`lstat` classifies entries by their
  own type, so a symbolic link is a distinct constructor);
* `qsort` with `compare_libraries` (descending executable count) is modelled
  with `List.insertionSort`, a comparison sort agreeing with every
  `qsort` implementation on lists with pairwise distinct keys;
* report generation and the reporting phase of `main` take explicit booleans
  for the environment-dependent failure points (filename length check,
  `fopen`, `HPDF_New`, `HPDF_SaveToFile`).
-/

namespace Bldd

/-- Capacity bound `MAX_LIBS` from bldd.c. -/
def MAX_LIBS : Nat := 100

/-- Capacity bound `MAX_EXECS` from bldd.c. -/
def MAX_EXECS : Nat := 10000

/-- Capacity bound `MAX_ARCH` from bldd.c. -/
def MAX_ARCH : Nat := 4

/-- One `Library` record: canonical name plus the ordered executable list
(the C `execs` array up to `exec_count`). -/
structure Library where
  name : String
  execs : List String
deriving DecidableEq

instance : Inhabited Library := ⟨⟨"", []⟩⟩

/-- `exec_count` of a library is the length of its populated `execs` array. -/
def Library.exec_count (l : Library) : Nat := l.execs.length

/-- One `Architecture` record: tag plus the populated prefix of its
`libraries` array. -/
structure Architecture where
  name : String
  libraries : List Library
deriving DecidableEq

instance : Inhabited Architecture := ⟨⟨"", []⟩⟩

/-- The global aggregation state of bldd.c: the populated prefix of `archs`
plus the global counter `total_execs`. -/
structure Store where
  archs : List Architecture
  total_execs : Nat
deriving DecidableEq

/-- The empty store (`memset(archs, 0, ...)`, `total_execs = 0`). -/
def Store.empty : Store := ⟨[], 0⟩

/-- Index of the first element satisfying `p`, mirroring the linear search
loops of `find_or_add_architecture` / `find_or_add_library`. -/
def lookup_index {α : Type} (p : α → Bool) : List α → Option Nat
  | [] => none
  | x :: xs => if p x then some 0 else (lookup_index p xs).map (· + 1)

/-- `strstr(hay, needle) != NULL`: `needle` occurs as a contiguous substring
of `hay`. -/
def substr (needle hay : String) : Bool := decide (needle.data <:+: hay.data)

/-- The `strcmp(archs[i].name, arch) == 0` probe of the architecture scan. -/
def arch_name_is (arch : String) (x : Architecture) : Bool := x.name == arch

/-- The `strcmp(arch->libraries[i].name, lib_name) == 0` probe of the
library scan. -/
def lib_name_is (lib_name : String) (x : Library) : Bool := x.name == lib_name

/-- The normalization performed inline in `get_dependencies` on each search
term: keep a term containing `.so` verbatim; otherwise append `.so`,
additionally prepending `lib` when the term does not start with `lib`
(`strncmp(lib_search, "lib", 3)`). -/
def normalize (lib_search : String) : String :=
  if substr ".so" lib_search then lib_search
  else if decide ("lib".data <+: lib_search.data) then lib_search ++ ".so"
  else "lib" ++ lib_search ++ ".so"

/-- The matching loop of `get_dependencies`: walk the caller-supplied terms
in order, return the canonical form of the first whose canonical form is a
substring of the dependency name (`strstr(lib_name, lib_pattern)`), then
break. -/
def first_match (libs : List String) (lib_name : String) : Option String :=
  match libs with
  | [] => none
  | t :: ts =>
    if substr (normalize t) lib_name then some (normalize t)
    else first_match ts lib_name

/-- `find_or_add_architecture`: linear scan by name; append when absent and
below `MAX_ARCH`; otherwise log and return `-1`. -/
def find_or_add_architecture (st : Store) (arch : String) : Store × Int :=
  match lookup_index (arch_name_is arch) st.archs with
  | some i => (st, (i : Int))
  | none =>
    if st.archs.length < MAX_ARCH then
      ({ st with archs := st.archs ++ [⟨arch, []⟩] }, (st.archs.length : Int))
    else (st, -1)

/-- `find_or_add_library`: dereferences `archs[arch_index]`, which is an
out-of-bounds access (`none`) unless `arch_index` lies in the populated
range; then linear scan by name, append when absent and below `MAX_LIBS`,
otherwise log and return `-1`. -/
def find_or_add_library (st : Store) (arch_index : Int) (lib_name : String) :
    Option (Store × Int) :=
  if 0 ≤ arch_index ∧ arch_index.toNat < st.archs.length then
    let i := arch_index.toNat
    let arch := st.archs.getD i default
    match lookup_index (lib_name_is lib_name) arch.libraries with
    | some j => some (st, (j : Int))
    | none =>
      if arch.libraries.length < MAX_LIBS then
        let arch' : Architecture :=
          { arch with libraries := arch.libraries ++ [⟨lib_name, []⟩] }
        some ({ st with archs := st.archs.set i arch' }, (arch.libraries.length : Int))
      else some (st, -1)
  else none

/-- `add_executable`: dereferences `archs[arch_index].libraries[lib_index]`
(out of bounds, hence `none`, for indices outside the populated ranges —
in particular for the `-1` returned by a failed find-or-add); duplicate
paths are a no-op; below `MAX_EXECS` the path is appended and the global
counter incremented; at capacity the insert is dropped with a diagnostic. -/
def add_executable (st : Store) (arch_index lib_index : Int) (exec_path : String) :
    Option Store :=
  if 0 ≤ arch_index ∧ arch_index.toNat < st.archs.length then
    let i := arch_index.toNat
    let arch := st.archs.getD i default
    if 0 ≤ lib_index ∧ lib_index.toNat < arch.libraries.length then
      let j := lib_index.toNat
      let lib := arch.libraries.getD j default
      if exec_path ∈ lib.execs then some st
      else if lib.execs.length < MAX_EXECS then
        let lib' : Library := { lib with execs := lib.execs ++ [exec_path] }
        let arch' : Architecture := { arch with libraries := arch.libraries.set j lib' }
        some { st with archs := st.archs.set i arch', total_execs := st.total_execs + 1 }
      else some st
    else none
  else none

/-- The store-recording composition performed by `get_dependencies` on a
match: `find_or_add_architecture`, then `find_or_add_library` and
`add_executable` on the returned indices, which the C code never checks
for `-1`. -/
def record (st : Store) (arch lib_pattern exec_path : String) : Option Store :=
  match find_or_add_architecture st arch with
  | (st1, arch_index) =>
    match find_or_add_library st1 arch_index lib_pattern with
    | none => none
    | some (st2, lib_index) => add_executable st2 arch_index lib_index exec_path

/-- Processing of one `(NEEDED)` dependency line in `get_dependencies`:
record under the first matching canonical form, if any. -/
def process_needed (st : Store) (arch file_path : String) (libs : List String)
    (dep_name : String) : Option Store :=
  match first_match libs dep_name with
  | some pat => record st arch pat file_path
  | none => some st

/-- `get_dependencies` over the ordered dependency list extracted by the
collaborator for one file. -/
def get_dependencies (st : Store) (file_path : String) (libs : List String)
    (arch : String) : List String → Option Store
  | [] => some st
  | d :: rest =>
    match process_needed st arch file_path libs d with
    | none => none
    | some st' => get_dependencies st' file_path libs arch rest

/-- A filesystem entry as seen by `scan_directory` through `lstat` (which
does not dereference links, so a symbolic link is its own entry type
regardless of its target).  File attributes carry the answers of the
external collaborators: the `is_executable` probe result and, for files
passing it, the `readelf` architecture tag and ordered dependency list. -/
inductive FSEntry : Type
  | dir : String → List FSEntry → FSEntry
  | file : String → Bool → String → List String → FSEntry
  | symlink : String → String → FSEntry

mutual

/-- The per-entry body of the `readdir` loop of `scan_directory`: skip the
`.`/`..` pseudo-entries, recurse into directories, run the classifier and
the match pipeline on regular files, and take neither branch on a symbolic
link (`S_ISDIR` and `S_ISREG` are both false for a link under `lstat`). -/
def scan_one (libs : List String) (dir_path : String) (st : Store) :
    FSEntry → Option Store
  | .dir name entries =>
    if name = "." ∨ name = ".." then some st
    else scan_entries libs (dir_path ++ "/" ++ name) st entries
  | .file name ex arch deps =>
    if name = "." ∨ name = ".." then some st
    else if ex then
      if arch ≠ "unknown" then get_dependencies st (dir_path ++ "/" ++ name) libs arch deps
      else some st
    else some st
  | .symlink _ _ => some st

/-- `scan_directory`'s `readdir` loop over the entries of one directory. -/
def scan_entries (libs : List String) (dir_path : String) (st : Store) :
    List FSEntry → Option Store
  | [] => some st
  | e :: es =>
    match scan_one libs dir_path st e with
    | none => none
    | some st' => scan_entries libs dir_path st' es

end

/-- The `compare_libraries` order: `qsort` receives
`lib_b->exec_count - lib_a->exec_count`, i.e. descending executable count. -/
def lib_le (a b : Library) : Prop := b.exec_count ≤ a.exec_count

instance : DecidableRel lib_le := fun a b => Nat.decLe b.exec_count a.exec_count

instance : IsTotal Library lib_le :=
  ⟨fun a b => Nat.le_total b.exec_count a.exec_count⟩

instance : IsTrans Library lib_le :=
  ⟨fun _ _ _ hab hbc => Nat.le_trans hbc hab⟩

/-- The in-place `qsort(arch->libraries, arch->lib_count, ...,
compare_libraries)` call, modelled by a comparison sort for the same
order. -/
def sort_libraries (ls : List Library) : List Library := List.insertionSort lib_le ls

/-- Store state after a report pass: both report generators sort every
architecture's library array in place before emitting it. -/
def sort_store (st : Store) : Store :=
  { st with archs := st.archs.map (fun a => { a with libraries := sort_libraries a.libraries }) }

/-- The text lines emitted for one library: header with name and count, one
arrow line per executable in stored (first-seen) order, then a blank
line. -/
def library_lines (l : Library) : List String :=
  (l.name ++ " (" ++ toString l.exec_count ++ " execs)") ::
    (l.execs.map (fun e => "-> " ++ e) ++ [""])

/-- The text lines emitted for one architecture: separator header, then the
library blocks in array order. -/
def arch_lines (a : Architecture) : List String :=
  ("---------- " ++ a.name ++ " ----------") :: (a.libraries.map library_lines).flatten

/-- The full text report body for a (pre-sorted) store. -/
def report_lines (st : Store) : List String :=
  "Report on dynamic used libraries by ELF executables" ::
    "------------------------------------------------------------" ::
    (st.archs.map arch_lines).flatten

/-- `generate_txt_report`: early return (no store mutation, no report) when
the filename length check fails or `fopen` fails; otherwise every
architecture's library array is sorted in place and the report emitted. -/
def generate_txt_report (len_ok open_ok : Bool) (st : Store) :
    Store × Option (List String) :=
  if ¬ len_ok then (st, none)
  else if ¬ open_ok then (st, none)
  else (sort_store st, some (report_lines (sort_store st)))

/-- `generate_pdf_report`: early return when the filename length check or
`HPDF_New` fails; otherwise the same in-place sort runs, the document is
assembled and `HPDF_SaveToFile` may still fail (second component: whether
the file was saved). -/
def generate_pdf_report (len_ok new_ok save_ok : Bool) (st : Store) : Store × Bool :=
  if ¬ len_ok then (st, false)
  else if ¬ new_ok then (st, false)
  else (sort_store st, save_ok)

/-- Outcome of the reporting tail of `main` (lines 88-109): final store,
text report produced (if any), whether pdf generation was invoked and
whether it saved, and the process exit status. -/
structure RunResult where
  store : Store
  txt_report : Option (List String)
  pdf_invoked : Bool
  pdf_saved : Bool
  exit_status : Nat
deriving DecidableEq

/-- The reporting tail of `main`: run the text generator when requested,
then the pdf generator when requested (against whatever store the first
left), print the summary and return 0 unconditionally. -/
def main_report_phase (txt_format pdf_format : Bool)
    (txt_len_ok txt_open_ok pdf_len_ok pdf_new_ok pdf_save_ok : Bool)
    (st : Store) : RunResult :=
  let t := if txt_format then generate_txt_report txt_len_ok txt_open_ok st else (st, none)
  let p := if pdf_format then
      (let r := generate_pdf_report pdf_len_ok pdf_new_ok pdf_save_ok t.1
       (r.1, true, r.2))
    else (t.1, false, false)
  ⟨p.1, t.2, p.2.1, p.2.2, 0⟩

/-- Outcome of `parse_arguments`: help exit, `exit(1)`, an out-of-bounds
write into the 100-slot `libs` array, or a parsed option set. -/
inductive ParseResult : Type
  | help_exit : ParseResult
  | err_exit : ParseResult
  | oob_write : ParseResult
  | ok : List String → String → Bool → Bool → String → ParseResult
deriving DecidableEq

/-- The argument loop of `parse_arguments` plus its post-loop checks.
`dir_ok` stands for the final `opendir` accessibility probe.  The write
`options->libs[options->lib_count] = strdup(argv[++i])` is performed with
no bound check: when `lib_count` has already reached `MAX_LIBS` it lands
outside the 100-slot allocation (`oob_write`). -/
def parse_loop (dir_ok : String → Bool) :
    List String → List String → Option String → Bool → Bool → String → ParseResult
  | [], libs, dir, txt_format, pdf_format, output =>
    if libs.length = 0 then .err_exit
    else match dir with
      | none => .err_exit
      | some d => if dir_ok d then .ok libs d txt_format pdf_format output else .err_exit
  | a :: rest, libs, dir, txt_format, pdf_format, output =>
    if a = "--help" ∨ a = "-h" then .help_exit
    else if a = "--lib" ∨ a = "-l" then
      match rest with
      | [] => .err_exit
      | v :: rest2 =>
        if MAX_LIBS ≤ libs.length then .oob_write
        else parse_loop dir_ok rest2 (libs ++ [v]) dir txt_format pdf_format output
    else if a = "--dir" ∨ a = "-d" then
      match rest with
      | [] => .err_exit
      | v :: rest2 => parse_loop dir_ok rest2 libs (some v) txt_format pdf_format output
    else if a = "--format" ∨ a = "-f" then
      match rest with
      | [] => .err_exit
      | v :: rest2 =>
        if v = "txt" then parse_loop dir_ok rest2 libs dir true false output
        else if v = "pdf" then parse_loop dir_ok rest2 libs dir false true output
        else if v = "both" then parse_loop dir_ok rest2 libs dir true true output
        else .err_exit
    else if a = "--output" ∨ a = "-o" then
      match rest with
      | [] => .err_exit
      | v :: rest2 => parse_loop dir_ok rest2 libs dir txt_format pdf_format v
    else .err_exit

/-- `parse_arguments`: defaults (`txt`, output base `bldd_report`), the
`argc < 2` help path, then the loop. -/
def parse_arguments (dir_ok : String → Bool) (args : List String) : ParseResult :=
  if args.length = 0 then .help_exit
  else parse_loop dir_ok args [] none true false "bldd_report"

/-- Number of `--lib`/`-l` tokens in an argument list (an upper bound on
how many search terms the loop can store). -/
def lib_flag_count (args : List String) : Nat :=
  (args.filter (fun a => a == "--lib" || a == "-l")).length

/-- Per-architecture executable total: the sum of the populated library
set sizes. -/
def arch_execs (a : Architecture) : Nat :=
  (a.libraries.map (fun l => l.execs.length)).sum

/-- Store-wide executable total recomputed from the per-library sets. -/
def sum_execs (st : Store) : Nat := (st.archs.map arch_execs).sum

/-- The counting invariant of the store: the global insert-event counter
`total_execs` equals the sum of all per-library set sizes. -/
def store_invariant (st : Store) : Prop := st.total_execs = sum_execs st

instance (st : Store) : Decidable (store_invariant st) :=
  Nat.decEq st.total_execs (sum_execs st)

/-- Fixture: a store whose single architecture already holds `MAX_LIBS`
distinct libraries. -/
def stFull : Store :=
  ⟨[⟨"x86_64", (List.range MAX_LIBS).map (fun n => ⟨"lib" ++ toString n ++ ".so", []⟩)⟩], 0⟩

/-- Fixture: a store already holding `MAX_ARCH` distinct architectures. -/
def stArchFull : Store :=
  ⟨[⟨"x86_64", []⟩, ⟨"x86", []⟩, ⟨"aarch64", []⟩, ⟨"armv7", []⟩], 0⟩

/-- Fixture: a store whose library order is not descending by count. -/
def cStore : Store :=
  ⟨[⟨"x86_64", [⟨"liba.so", ["/bin/e1"]⟩, ⟨"libb.so", ["/bin/e2", "/bin/e3"]⟩]⟩], 3⟩

/-- Fixture: the store after recording `/bin/a` under `x86_64`/`libc.so`. -/
def sOne : Store := ⟨[⟨"x86_64", [⟨"libc.so", ["/bin/a"]⟩]⟩], 1⟩

/-- Fixture: the architecture `cStore` holds after its libraries are sorted
by descending executable count. -/
def c8arch : Architecture :=
  ⟨"x86_64", [⟨"libb.so", ["/bin/e2", "/bin/e3"]⟩, ⟨"liba.so", ["/bin/e1"]⟩]⟩

/-- Fixture: a command line carrying 101 `--lib` occurrences. -/
def oob_args : List String :=
  (List.replicate 101 ["--lib", "x"]).flatten ++ ["--dir", "/tmp"]

theorem substr_so_append (y : String) : substr ".so" (y ++ ".so") = true := by
  simp only [substr, decide_eq_true_eq, String.data_append]
  exact (List.suffix_append y.data ".so".data).isInfix

theorem normalize_of_substr (x : String) (h : substr ".so" x = true) :
    normalize x = x := by
  rw [normalize, if_pos h]

/-- C4: normalization keeps a term containing `.so` verbatim, appends `.so`
to a term beginning with `lib`, wraps any other term as `lib<term>.so`; the
three spec examples hold and normalization is idempotent. -/
theorem claim_C4 :
    (∀ x : String, normalize (normalize x) = normalize x) ∧
    normalize "pthread" = "libpthread.so" ∧
    normalize "libm.so" = "libm.so" ∧
    normalize "libdl" = "libdl.so" ∧
    (∀ x : String,
      (substr ".so" x = true → normalize x = x) ∧
      (substr ".so" x = false → "lib".data <+: x.data → normalize x = x ++ ".so") ∧
      (substr ".so" x = false → ¬ "lib".data <+: x.data →
        normalize x = "lib" ++ x ++ ".so")) := by
  refine ⟨?_, by decide, by decide, by decide, ?_⟩
  · intro x
    by_cases h : substr ".so" x = true
    · rw [normalize_of_substr x h, normalize_of_substr x h]
    · have h' : substr ".so" x = false := by
        cases hx : substr ".so" x
        · rfl
        · exact absurd hx h
      by_cases hp : "lib".data <+: x.data
      · have hx : normalize x = x ++ ".so" := by
          rw [normalize, if_neg (by simp [h']), if_pos (by simpa using hp)]
        rw [hx, normalize_of_substr _ (substr_so_append x)]
      · have hx : normalize x = "lib" ++ x ++ ".so" := by
          rw [normalize, if_neg (by simp [h']), if_neg (by simpa using hp)]
        rw [hx, normalize_of_substr _ (substr_so_append ("lib" ++ x))]
  · intro x
    refine ⟨fun h => normalize_of_substr x h, fun h hp => ?_, fun h hp => ?_⟩
    · rw [normalize, if_neg (by simp [h]), if_pos (by simpa using hp)]
    · rw [normalize, if_neg (by simp [h]), if_neg (by simpa using hp)]

theorem claim_C4_witness :
    normalize (normalize "pthread") = normalize "pthread" ∧
    normalize "libm.so" = "libm.so" :=
  ⟨claim_C4.1 "pthread", (claim_C4.2.2.2.2 "libm.so").1 (by decide)⟩

theorem first_match_eq :
    ∀ (libs : List String) (i : Nat) (dep : String),
      i < libs.length →
      substr (normalize (libs.getD i "")) dep = true →
      (∀ j, j < i → substr (normalize (libs.getD j "")) dep = false) →
      first_match libs dep = some (normalize (libs.getD i ""))
  | [], i, dep, hi, _, _ => absurd hi (by simp)
  | t :: ts, 0, dep, _, hm, _ => by
    rw [List.getD_cons_zero] at hm ⊢
    rw [first_match, if_pos hm]
  | t :: ts, (i + 1), dep, hi, hm, hf => by
    have h0 : substr (normalize t) dep = false := by
      have := hf 0 (Nat.succ_pos i)
      rwa [List.getD_cons_zero] at this
    rw [List.getD_cons_succ] at hm ⊢
    rw [first_match, if_neg (by simp [h0])]
    exact first_match_eq ts i dep (by simpa using hi) hm
      (fun j hj => by
        have := hf (j + 1) (Nat.succ_lt_succ hj)
        rwa [List.getD_cons_succ] at this)

/-- C3: a dependency name is attributed to exactly the first caller-supplied
term, in supplied order, whose canonical form is a substring of the name,
and the recording happens under that canonical form. -/
theorem claim_C3 (libs : List String) (dep : String) (i : Nat)
    (hi : i < libs.length)
    (hm : substr (normalize (libs.getD i "")) dep = true)
    (hf : ∀ j, j < i → substr (normalize (libs.getD j "")) dep = false) :
    first_match libs dep = some (normalize (libs.getD i "")) ∧
    ∀ (st : Store) (arch path : String),
      process_needed st arch path libs dep =
        record st arch (normalize (libs.getD i "")) path := by
  have h := first_match_eq libs i dep hi hm hf
  exact ⟨h, fun st arch path => by rw [process_needed, h]⟩

theorem claim_C3_witness :
    first_match ["c", "pthread"] "libc.so.6" =
      some (normalize (["c", "pthread"].getD 0 "")) ∧
    ∀ (st : Store) (arch path : String),
      process_needed st arch path ["c", "pthread"] "libc.so.6" =
        record st arch (normalize (["c", "pthread"].getD 0 "")) path :=
  claim_C3 ["c", "pthread"] "libc.so.6" 0 (by decide) (by decide)
    (fun j hj => absurd hj (Nat.not_lt_zero j))

/-- C5: a directory entry that is a symbolic link — whatever it points at,
including an ancestor directory — is classified by its link type: the walk
neither descends into it nor processes it as a candidate file, leaving the
store unchanged, and its result does not depend on the link target. -/
theorem claim_C5 (libs : List String) (dir_path name target : String) (st : Store) :
    scan_one libs dir_path st (FSEntry.symlink name target) = some st ∧
    ∀ target', scan_one libs dir_path st (FSEntry.symlink name target) =
      scan_one libs dir_path st (FSEntry.symlink name target') := by
  constructor
  · rw [scan_one]
  · intro target'
    rw [scan_one, scan_one]

theorem lookup_index_some {α : Type} {p : α → Bool} (d : α) :
    ∀ {l : List α} {i : Nat}, lookup_index p l = some i →
      i < l.length ∧ p (l.getD i d) = true := by
  intro l
  induction l with
  | nil => intro i h; simp [lookup_index] at h
  | cons x xs ih =>
    intro i h
    rw [lookup_index] at h
    by_cases hx : p x = true
    · rw [if_pos hx] at h
      have : 0 = i := by simpa using h
      subst this
      exact ⟨Nat.succ_pos _, by simpa using hx⟩
    · rw [if_neg hx] at h
      rcases Option.map_eq_some'.mp h with ⟨j, hj, rfl⟩
      obtain ⟨h1, h2⟩ := ih hj
      exact ⟨Nat.succ_lt_succ h1, by simpa using h2⟩

theorem lookup_index_append_none {α : Type} {p : α → Bool} :
    ∀ {l : List α}, lookup_index p l = none → ∀ (x : α), p x = true →
      lookup_index p (l ++ [x]) = some l.length := by
  intro l
  induction l with
  | nil => intro _ x hx; simp [lookup_index, hx]
  | cons y ys ih =>
    intro h x hx
    rw [lookup_index] at h
    by_cases hy : p y = true
    · rw [if_pos hy] at h; exact absurd h (by simp)
    · rw [if_neg hy] at h
      have hnone : lookup_index p ys = none := by
        cases hm : lookup_index p ys
        · rfl
        · rw [hm] at h; exact absurd h (by simp)
      rw [List.cons_append, lookup_index, if_neg hy, ih hnone x hx]
      simp

theorem lookup_index_set {α : Type} {p : α → Bool} :
    ∀ {l : List α} {i : Nat} {x : α}, lookup_index p l = some i → p x = true →
      lookup_index p (l.set i x) = some i := by
  intro l
  induction l with
  | nil => intro i x h _; simp [lookup_index] at h
  | cons y ys ih =>
    intro i x h hx
    rw [lookup_index] at h
    by_cases hy : p y = true
    · rw [if_pos hy] at h
      have : 0 = i := by simpa using h
      subst this
      rw [List.set_cons_zero, lookup_index, if_pos hx]
    · rw [if_neg hy] at h
      rcases Option.map_eq_some'.mp h with ⟨j, hj, rfl⟩
      rw [List.set_cons_succ, lookup_index, if_neg hy, ih hj hx]
      simp

theorem getD_set_self {α : Type} (d : α) :
    ∀ (l : List α) (i : Nat) (x : α), i < l.length → (l.set i x).getD i d = x := by
  intro l
  induction l with
  | nil => intro i x h; simp at h
  | cons y ys ih =>
    intro i x h
    cases i with
    | zero => rw [List.set_cons_zero, List.getD_cons_zero]
    | succ j =>
      rw [List.set_cons_succ, List.getD_cons_succ]
      exact ih j x (by simpa using h)

theorem getD_append_length {α : Type} (d : α) :
    ∀ (l : List α) (x : α), (l ++ [x]).getD l.length d = x := by
  intro l
  induction l with
  | nil => intro x; rfl
  | cons y ys ih =>
    intro x
    rw [List.cons_append, List.length_cons, List.getD_cons_succ, ih]

theorem getD_map {α β : Type} {f : α → β} {d : α} {d' : β} (hd : f d = d') :
    ∀ (l : List α) (i : Nat), (l.map f).getD i d' = f (l.getD i d) := by
  intro l
  induction l with
  | nil => intro i; simp [List.getD, hd.symm]
  | cons y ys ih =>
    intro i
    cases i with
    | zero => rfl
    | succ j => rw [List.map_cons, List.getD_cons_succ, List.getD_cons_succ, ih]

theorem sum_map_set {α : Type} (f : α → Nat) (d : α) :
    ∀ (l : List α) (i : Nat) (x : α), i < l.length →
      ((l.set i x).map f).sum + f (l.getD i d) = (l.map f).sum + f x := by
  intro l
  induction l with
  | nil => intro i x h; simp at h
  | cons y ys ih =>
    intro i x h
    cases i with
    | zero =>
      rw [List.set_cons_zero, List.getD_cons_zero]
      simp [List.map_cons, List.sum_cons]
      omega
    | succ j =>
      rw [List.set_cons_succ, List.getD_cons_succ]
      simp only [List.map_cons, List.sum_cons]
      have := ih j x (by simpa using h)
      omega

theorem foaa_found {st : Store} {a : String} {i : Nat}
    (h : lookup_index (arch_name_is a) st.archs = some i) :
    find_or_add_architecture st a = (st, (i : Int)) := by
  unfold find_or_add_architecture
  rw [h]

theorem foal_neg (st : Store) (l : String) :
    find_or_add_library st (-1) l = none := by
  unfold find_or_add_library
  rw [if_neg]
  intro hc
  exact absurd hc.1 (by decide)

theorem addexec_neg (st : Store) (ai : Int) (e : String) :
    add_executable st ai (-1) e = none := by
  unfold add_executable
  by_cases hc : 0 ≤ ai ∧ ai.toNat < st.archs.length
  · rw [if_pos hc, if_neg]
    intro hc2
    exact absurd hc2.1 (by decide)
  · rw [if_neg hc]

theorem foaa_post {st : Store} {a : String} {st1 : Store} {ai : Int}
    (hA : find_or_add_architecture st a = (st1, ai)) (hne : ai ≠ -1) :
    ∃ iA : Nat, ai = (iA : Int) ∧
      lookup_index (arch_name_is a) st1.archs = some iA := by
  unfold find_or_add_architecture at hA
  cases hlk : lookup_index (arch_name_is a) st.archs with
  | some i =>
    rw [hlk] at hA
    simp only [Prod.mk.injEq] at hA
    obtain ⟨rfl, rfl⟩ := hA
    exact ⟨i, rfl, hlk⟩
  | none =>
    rw [hlk] at hA
    by_cases hlen : st.archs.length < MAX_ARCH
    · rw [if_pos hlen] at hA
      simp only [Prod.mk.injEq] at hA
      obtain ⟨rfl, rfl⟩ := hA
      refine ⟨st.archs.length, rfl, ?_⟩
      exact lookup_index_append_none hlk _ (by simp [arch_name_is])
    · rw [if_neg hlen] at hA
      simp only [Prod.mk.injEq] at hA
      exact absurd hA.2.symm hne

theorem foal_post {st1 : Store} {a l : String} {iA : Nat} {st2 : Store} {li : Int}
    (hlkA : lookup_index (arch_name_is a) st1.archs = some iA)
    (hB : find_or_add_library st1 (iA : Int) l = some (st2, li))
    (hne : li ≠ -1) :
    ∃ jB : Nat, li = (jB : Int) ∧
      lookup_index (arch_name_is a) st2.archs = some iA ∧
      lookup_index (lib_name_is l) ((st2.archs.getD iA default).libraries) = some jB := by
  have hiA := lookup_index_some default hlkA
  unfold find_or_add_library at hB
  rw [if_pos ⟨Int.natCast_nonneg iA, by simpa using hiA.1⟩] at hB
  simp only [Int.toNat_natCast] at hB
  split at hB
  next j hlkB =>
    simp only [Option.some.injEq, Prod.mk.injEq] at hB
    obtain ⟨rfl, rfl⟩ := hB
    exact ⟨j, rfl, hlkA, hlkB⟩
  next hlkB =>
    split at hB
    · simp only [Option.some.injEq, Prod.mk.injEq] at hB
      obtain ⟨rfl, rfl⟩ := hB
      refine ⟨(st1.archs.getD iA default).libraries.length, rfl, ?_, ?_⟩
      · exact lookup_index_set hlkA (by simpa [arch_name_is] using hiA.2)
      · simp only [getD_set_self default _ _ _ hiA.1]
        exact lookup_index_append_none hlkB _ (by simp [lib_name_is])
    · simp only [Option.some.injEq, Prod.mk.injEq] at hB
      exact absurd hB.2.symm hne

theorem addexec_post {st2 : Store} {a l : String} {iA jB : Nat} {e : String} {st' : Store}
    (hlkA : lookup_index (arch_name_is a) st2.archs = some iA)
    (hlkB : lookup_index (lib_name_is l) ((st2.archs.getD iA default).libraries) = some jB)
    (hC : add_executable st2 (iA : Int) (jB : Int) e = some st') :
    lookup_index (arch_name_is a) st'.archs = some iA ∧
    lookup_index (lib_name_is l) ((st'.archs.getD iA default).libraries) = some jB ∧
    (e ∈ (((st'.archs.getD iA default).libraries).getD jB default).execs ∨
      MAX_EXECS ≤ (((st'.archs.getD iA default).libraries).getD jB default).execs.length) := by
  have hiA := lookup_index_some default hlkA
  have hjB := lookup_index_some default hlkB
  unfold add_executable at hC
  rw [if_pos ⟨Int.natCast_nonneg iA, by simpa using hiA.1⟩] at hC
  simp only [Int.toNat_natCast] at hC
  rw [if_pos ⟨Int.natCast_nonneg jB, by simpa using hjB.1⟩] at hC
  split at hC
  · simp only [Option.some.injEq] at hC
    subst hC
    exact ⟨hlkA, hlkB, Or.inl (by assumption)⟩
  · split at hC
    · simp only [Option.some.injEq] at hC
      subst hC
      refine ⟨?_, ?_, ?_⟩
      · exact lookup_index_set hlkA (by simpa [arch_name_is] using hiA.2)
      · simp only [getD_set_self default _ _ _ hiA.1]
        exact lookup_index_set hlkB (by simpa [lib_name_is] using hjB.2)
      · simp only [getD_set_self default _ _ _ hiA.1,
          getD_set_self default _ _ _ hjB.1]
        exact Or.inl (by simp)
    · simp only [Option.some.injEq] at hC
      subst hC
      exact ⟨hlkA, hlkB, Or.inr (Nat.le_of_not_lt (by assumption))⟩

theorem record_shape {st st' : Store} {a l e : String}
    (h : record st a l e = some st') :
    ∃ (i j : Nat),
      lookup_index (arch_name_is a) st'.archs = some i ∧
      lookup_index (lib_name_is l) ((st'.archs.getD i default).libraries) = some j ∧
      (e ∈ (((st'.archs.getD i default).libraries).getD j default).execs ∨
        MAX_EXECS ≤ (((st'.archs.getD i default).libraries).getD j default).execs.length) := by
  unfold record at h
  rcases hA : find_or_add_architecture st a with ⟨st1, ai⟩
  simp only [hA] at h
  by_cases hai : ai = -1
  · subst hai
    simp only [foal_neg st1 l] at h
    exact absurd h (by simp)
  · obtain ⟨iA, rfl, hlkA⟩ := foaa_post hA hai
    rcases hB : find_or_add_library st1 (iA : Int) l with _ | ⟨st2, li⟩
    · simp only [hB] at h
      exact absurd h (by simp)
    · simp only [hB] at h
      by_cases hli : li = -1
      · subst hli
        rw [addexec_neg] at h
        exact absurd h (by simp)
      · obtain ⟨jB, rfl, hlkA2, hlkB⟩ := foal_post hlkA hB hli
        exact ⟨iA, jB, addexec_post hlkA2 hlkB h⟩

theorem foal_found {st : Store} {iA : Nat} {l : String} {j : Nat}
    (hbound : iA < st.archs.length)
    (h : lookup_index (lib_name_is l) ((st.archs.getD iA default).libraries) = some j) :
    find_or_add_library st (iA : Int) l = some (st, (j : Int)) := by
  unfold find_or_add_library
  rw [if_pos ⟨Int.natCast_nonneg iA, by simpa using hbound⟩]
  simp only [Int.toNat_natCast]
  rw [h]

theorem addexec_skip {st : Store} {iA jB : Nat} {e : String}
    (hbA : iA < st.archs.length)
    (hbB : jB < (st.archs.getD iA default).libraries.length)
    (hyp : e ∈ (((st.archs.getD iA default).libraries).getD jB default).execs ∨
      MAX_EXECS ≤ (((st.archs.getD iA default).libraries).getD jB default).execs.length) :
    add_executable st (iA : Int) (jB : Int) e = some st := by
  unfold add_executable
  rw [if_pos ⟨Int.natCast_nonneg iA, by simpa using hbA⟩]
  simp only [Int.toNat_natCast]
  rw [if_pos ⟨Int.natCast_nonneg jB, by simpa using hbB⟩]
  by_cases hmem : e ∈ ((st.archs.getD iA default).libraries.getD jB default).execs
  · rw [if_pos hmem]
  · rw [if_neg hmem]
    rcases hyp with hmem2 | hlen
    · exact absurd hmem2 hmem
    · rw [if_neg (Nat.not_lt.mpr hlen)]

/-- C7: recording the same (architecture, library, executable) triple a
second time is a no-op: whenever the first `record` returns a store, running
`record` again on that store with the same triple returns it unchanged —
the library's executable list, its count and the global total included. -/
theorem claim_C7 (st st' : Store) (a l e : String)
    (h : record st a l e = some st') : record st' a l e = some st' := by
  obtain ⟨i, j, hA, hB, hC⟩ := record_shape h
  have hiA := lookup_index_some default hA
  have hjB := lookup_index_some default hB
  unfold record
  simp only [foaa_found hA, foal_found hiA.1 hB]
  exact addexec_skip hiA.1 hjB.1 hC

theorem claim_C7_witness :
    record Store.empty "x86_64" "libc.so" "/bin/a" = some sOne ∧
    record sOne "x86_64" "libc.so" "/bin/a" = some sOne :=
  ⟨by decide, claim_C7 Store.empty sOne "x86_64" "libc.so" "/bin/a" (by decide)⟩

theorem foaa_counts {st : Store} {a : String} {st1 : Store} {ai : Int}
    (hA : find_or_add_architecture st a = (st1, ai)) :
    st1.total_execs = st.total_execs ∧ sum_execs st1 = sum_execs st := by
  unfold find_or_add_architecture at hA
  split at hA
  · simp only [Prod.mk.injEq] at hA
    obtain ⟨rfl, rfl⟩ := hA
    exact ⟨rfl, rfl⟩
  · split at hA
    · simp only [Prod.mk.injEq] at hA
      obtain ⟨rfl, rfl⟩ := hA
      refine ⟨rfl, ?_⟩
      simp [sum_execs, arch_execs]
    · simp only [Prod.mk.injEq] at hA
      obtain ⟨rfl, rfl⟩ := hA
      exact ⟨rfl, rfl⟩

theorem foal_counts {st1 : Store} {ai : Int} {l : String} {st2 : Store} {li : Int}
    (hB : find_or_add_library st1 ai l = some (st2, li)) :
    st2.total_execs = st1.total_execs ∧ sum_execs st2 = sum_execs st1 := by
  unfold find_or_add_library at hB
  by_cases hc : 0 ≤ ai ∧ ai.toNat < st1.archs.length
  · rw [if_pos hc] at hB
    simp only [] at hB
    split at hB
    · simp only [Option.some.injEq, Prod.mk.injEq] at hB
      obtain ⟨rfl, rfl⟩ := hB
      exact ⟨rfl, rfl⟩
    · split at hB
      · simp only [Option.some.injEq, Prod.mk.injEq] at hB
        obtain ⟨rfl, rfl⟩ := hB
        refine ⟨rfl, ?_⟩
        have hset := sum_map_set arch_execs default st1.archs ai.toNat
          ⟨(st1.archs.getD ai.toNat default).name,
            (st1.archs.getD ai.toNat default).libraries ++ [⟨l, []⟩]⟩ hc.2
        have harch : arch_execs
            (⟨(st1.archs.getD ai.toNat default).name,
              (st1.archs.getD ai.toNat default).libraries ++ [⟨l, []⟩]⟩ : Architecture) =
            arch_execs (st1.archs.getD ai.toNat default) := by
          simp [arch_execs]
        rw [harch] at hset
        simp only [sum_execs]
        omega
      · simp only [Option.some.injEq, Prod.mk.injEq] at hB
        obtain ⟨rfl, rfl⟩ := hB
        exact ⟨rfl, rfl⟩
  · rw [if_neg hc] at hB
    exact absurd hB (by simp)

theorem addexec_counts {st2 : Store} {ai li : Int} {e : String} {st' : Store}
    (hC : add_executable st2 ai li e = some st') :
    (st'.total_execs = st2.total_execs ∧ sum_execs st' = sum_execs st2) ∨
    (st'.total_execs = st2.total_execs + 1 ∧ sum_execs st' = sum_execs st2 + 1) := by
  unfold add_executable at hC
  by_cases hcA : 0 ≤ ai ∧ ai.toNat < st2.archs.length
  · rw [if_pos hcA] at hC
    by_cases hcB : 0 ≤ li ∧
        li.toNat < (st2.archs.getD ai.toNat default).libraries.length
    · rw [if_pos hcB] at hC
      simp only [] at hC
      split at hC
      · simp only [Option.some.injEq] at hC
        subst hC
        exact Or.inl ⟨rfl, rfl⟩
      · split at hC
        · simp only [Option.some.injEq] at hC
          subst hC
          refine Or.inr ⟨rfl, ?_⟩
          have hlib := sum_map_set (fun l => l.execs.length) default
            (st2.archs.getD ai.toNat default).libraries li.toNat
            ⟨((st2.archs.getD ai.toNat default).libraries.getD li.toNat default).name,
              ((st2.archs.getD ai.toNat default).libraries.getD li.toNat default).execs
                ++ [e]⟩ hcB.2
          have hset := sum_map_set arch_execs default st2.archs ai.toNat
            ⟨(st2.archs.getD ai.toNat default).name,
              (st2.archs.getD ai.toNat default).libraries.set li.toNat
                ⟨((st2.archs.getD ai.toNat default).libraries.getD li.toNat default).name,
                  ((st2.archs.getD ai.toNat default).libraries.getD
                    li.toNat default).execs ++ [e]⟩⟩ hcA.2
          have harch : arch_execs
              (⟨(st2.archs.getD ai.toNat default).name,
                (st2.archs.getD ai.toNat default).libraries.set li.toNat
                  ⟨((st2.archs.getD ai.toNat default).libraries.getD li.toNat default).name,
                    ((st2.archs.getD ai.toNat default).libraries.getD
                      li.toNat default).execs ++ [e]⟩⟩ : Architecture) =
              arch_execs (st2.archs.getD ai.toNat default) + 1 := by
            simp only [arch_execs]
            simp only [List.length_append, List.length_cons, List.length_nil] at hlib
            omega
          rw [harch] at hset
          simp only [sum_execs]
          omega
        · simp only [Option.some.injEq] at hC
          subst hC
          exact Or.inl ⟨rfl, rfl⟩
    · rw [if_neg hcB] at hC
      exact absurd hC (by simp)
  · rw [if_neg hcA] at hC
    exact absurd hC (by simp)

/-- C6: the counting invariant — the global counter equals the sum of all
per-library executable-set sizes — is preserved by every successful
`record`, and the counter counts once per distinct (library, executable)
pair: the same path recorded under two libraries contributes twice. -/
theorem claim_C6 :
    (∀ (st : Store) (a l e : String) (st' : Store),
      store_invariant st → record st a l e = some st' → store_invariant st') ∧
    ((record Store.empty "x86_64" "libc.so" "/bin/a").bind
        (fun s => record s "x86_64" "libm.so" "/bin/a")) =
      some ⟨[⟨"x86_64", [⟨"libc.so", ["/bin/a"]⟩, ⟨"libm.so", ["/bin/a"]⟩]⟩], 2⟩ := by
  constructor
  · intro st a l e st' hinv h
    unfold record at h
    rcases hA : find_or_add_architecture st a with ⟨st1, ai⟩
    simp only [hA] at h
    rcases hB : find_or_add_library st1 ai l with _ | ⟨st2, li⟩
    · simp only [hB] at h
      exact absurd h (by simp)
    · simp only [hB] at h
      have c1 := foaa_counts hA
      have c2 := foal_counts hB
      have c3 := addexec_counts h
      simp only [store_invariant] at hinv ⊢
      rcases c3 with ⟨h1, h2⟩ | ⟨h1, h2⟩ <;> omega
  · decide

theorem claim_C6_witness :
    store_invariant Store.empty ∧ store_invariant sOne :=
  ⟨by decide, claim_C6.1 Store.empty "x86_64" "libc.so" "/bin/a" sOne
    (by decide) (by decide)⟩

/-- C2 counterexample: on a store whose library order is not already
descending by count, a successful text render reorders the store in place
(`qsort` on the global arrays), so the store after `generate_txt_report`
differs from the store before it. -/
theorem counterexample_C2 : (generate_txt_report true true cStore).1 ≠ cStore := by
  decide

theorem sort_store_counts (st : Store) :
    (sort_store st).total_execs = st.total_execs ∧
    (sort_store st).archs.map Architecture.name = st.archs.map Architecture.name ∧
    ∀ i : Nat, ((sort_store st).archs.getD i default).libraries.Perm
      ((st.archs.getD i default).libraries) := by
  refine ⟨rfl, ?_, ?_⟩
  · simp only [sort_store, List.map_map]
    rfl
  · intro i
    have hgd : ((sort_store st).archs.getD i default).libraries =
        sort_libraries ((st.archs.getD i default).libraries) := by
      simp only [sort_store]
      rw [@getD_map Architecture Architecture
        (fun a => { a with libraries := sort_libraries a.libraries })
        default default rfl st.archs i]
    rw [hgd]
    exact List.perm_insertionSort lib_le _

/-- C2 amended: rendering a report in either format preserves the set of
architectures (names, order and count), the global total, and each
architecture's multiset of libraries with their names, executable lists and
counts; but a successful render sorts each architecture's library array in
place into descending executable-count order, so the order of libraries
within an architecture is not in general preserved. -/
theorem claim_C2 (tl t2 pl pn ps : Bool) (st : Store) :
    ((generate_txt_report tl t2 st).1.total_execs = st.total_execs ∧
      (generate_txt_report tl t2 st).1.archs.map Architecture.name =
        st.archs.map Architecture.name ∧
      ∀ i : Nat, ((generate_txt_report tl t2 st).1.archs.getD i default).libraries.Perm
        ((st.archs.getD i default).libraries)) ∧
    ((generate_pdf_report pl pn ps st).1.total_execs = st.total_execs ∧
      (generate_pdf_report pl pn ps st).1.archs.map Architecture.name =
        st.archs.map Architecture.name ∧
      ∀ i : Nat, ((generate_pdf_report pl pn ps st).1.archs.getD i default).libraries.Perm
        ((st.archs.getD i default).libraries)) := by
  constructor
  · cases tl with
    | false => exact ⟨rfl, rfl, fun i => List.Perm.refl _⟩
    | true =>
      cases t2 with
      | false => exact ⟨rfl, rfl, fun i => List.Perm.refl _⟩
      | true => exact sort_store_counts st
  · cases pl with
    | false => exact ⟨rfl, rfl, fun i => List.Perm.refl _⟩
    | true =>
      cases pn with
      | false => exact ⟨rfl, rfl, fun i => List.Perm.refl _⟩
      | true => exact sort_store_counts st

/-- C8: in a generated report each architecture's libraries appear in
non-increasing order of executable count (ties in any order, as a
permutation of the stored libraries), and each library block lists its
executables in stored (first-seen insertion) order. -/
theorem claim_C8 (st : Store) (a : Architecture)
    (ha : a ∈ (generate_txt_report true true st).1.archs) :
    List.Pairwise (fun x y : Library => y.exec_count ≤ x.exec_count) a.libraries ∧
    (∃ b ∈ st.archs, b.name = a.name ∧ a.libraries.Perm b.libraries) ∧
    ∀ l ∈ a.libraries, library_lines l =
      (l.name ++ " (" ++ toString l.exec_count ++ " execs)") ::
        (l.execs.map (fun e => "-> " ++ e) ++ [""]) := by
  have ha' : a ∈ (sort_store st).archs := ha
  simp only [sort_store] at ha'
  rcases List.mem_map.mp ha' with ⟨b, hb, rfl⟩
  refine ⟨?_, ⟨b, hb, rfl, ?_⟩, ?_⟩
  · exact List.sorted_insertionSort lib_le b.libraries
  · exact List.perm_insertionSort lib_le b.libraries
  · intro l _
    rfl

theorem claim_C8_witness :
    c8arch ∈ (generate_txt_report true true cStore).1.archs ∧
    List.Pairwise (fun x y : Library => y.exec_count ≤ x.exec_count) c8arch.libraries :=
  ⟨by decide, (claim_C8 cStore c8arch (by decide)).1⟩

/-- C9: a failed text report (unopenable target) is logged and skipped, the
pdf generator still runs against the same unchanged store, and the process
exit status is 0 in every configuration: `main` returns 0 whether or not
report files could be written. -/
theorem claim_C9 (txtF pdfF tl t2 pl pn ps : Bool) (st : Store) :
    (main_report_phase txtF pdfF tl t2 pl pn ps st).exit_status = 0 ∧
    main_report_phase true true tl false pl pn ps st =
      ⟨(generate_pdf_report pl pn ps st).1, none, true,
        (generate_pdf_report pl pn ps st).2, 0⟩ := by
  constructor
  · cases txtF <;> cases pdfF <;> rfl
  · have htxt : generate_txt_report tl false st = (st, none) := by
      cases tl <;> rfl
    simp [main_report_phase, htxt]

theorem lib_flag_count_cons (a : String) (l : List String) :
    lib_flag_count (a :: l) =
      (if (a == "--lib" || a == "-l") = true then 1 else 0) + lib_flag_count l := by
  simp only [lib_flag_count, List.filter_cons]
  split
  · simp [Nat.add_comm]
  · simp

theorem lib_flag_count_le_two (a v : String) (rest2 : List String) :
    lib_flag_count rest2 ≤ lib_flag_count (a :: v :: rest2) := by
  rw [lib_flag_count_cons, lib_flag_count_cons]
  split <;> split <;> omega

theorem parse_loop_nil_no_oob (dir_ok : String → Bool) (libs : List String)
    (dir : Option String) (t p : Bool) (o : String) :
    parse_loop dir_ok [] libs dir t p o ≠ ParseResult.oob_write := by
  rw [parse_loop.eq_def]
  simp only []
  split
  · simp
  · split
    · simp
    · split <;> simp

theorem parse_loop_no_oob (dir_ok : String → Bool) :
    ∀ (n : Nat) (args libs : List String) (dir : Option String) (t p : Bool) (o : String),
      args.length ≤ n → libs.length + lib_flag_count args ≤ MAX_LIBS →
      parse_loop dir_ok args libs dir t p o ≠ ParseResult.oob_write := by
  intro n
  induction n with
  | zero =>
    intro args libs dir t p o hlen _
    have hnil : args = [] := List.length_eq_zero.mp (Nat.le_zero.mp hlen)
    subst hnil
    exact parse_loop_nil_no_oob dir_ok libs dir t p o
  | succ n ih =>
    intro args libs dir t p o hlen hcount
    match args with
    | [] => exact parse_loop_nil_no_oob dir_ok libs dir t p o
    | a :: rest =>
      rw [parse_loop.eq_def]
      simp only []
      by_cases h1 : a = "--help" ∨ a = "-h"
      · rw [if_pos h1]; simp
      · rw [if_neg h1]
        by_cases h2 : a = "--lib" ∨ a = "-l"
        · rw [if_pos h2]
          match rest with
          | [] => simp
          | v :: rest2 =>
            simp only []
            have hflag : (a == "--lib" || a == "-l") = true := by
              rcases h2 with h | h <;> simp [h]
            rw [lib_flag_count_cons, hflag, if_pos rfl, lib_flag_count_cons] at hcount
            have hrest2 : libs.length + 1 + lib_flag_count rest2 ≤ MAX_LIBS := by
              split at hcount <;> omega
            rw [if_neg (by omega)]
            apply ih rest2 (libs ++ [v]) dir t p o
            · have : rest2.length + 2 ≤ n + 1 := by simpa using hlen
              omega
            · simpa [List.length_append] using hrest2
        · rw [if_neg h2]
          have hdrop : libs.length + lib_flag_count rest ≤ MAX_LIBS := by
            rw [lib_flag_count_cons] at hcount
            split at hcount <;> omega
          by_cases h3 : a = "--dir" ∨ a = "-d"
          · rw [if_pos h3]
            match rest with
            | [] => simp
            | v :: rest2 =>
              simp only []
              apply ih rest2 libs (some v) t p o
              · have : rest2.length + 2 ≤ n + 1 := by simpa using hlen
                omega
              · have := lib_flag_count_le_two a v rest2
                have h2c : lib_flag_count rest2 ≤ lib_flag_count (v :: rest2) := by
                  rw [lib_flag_count_cons]
                  split <;> omega
                omega
          · rw [if_neg h3]
            by_cases h4 : a = "--format" ∨ a = "-f"
            · rw [if_pos h4]
              match rest with
              | [] => simp
              | v :: rest2 =>
                simp only []
                have h2c : lib_flag_count rest2 ≤ lib_flag_count (v :: rest2) := by
                  rw [lib_flag_count_cons]
                  split <;> omega
                have hlen2 : rest2.length ≤ n := by
                  have : rest2.length + 2 ≤ n + 1 := by simpa using hlen
                  omega
                by_cases hv1 : v = "txt"
                · rw [if_pos hv1]
                  exact ih rest2 libs dir true false o hlen2 (by omega)
                · rw [if_neg hv1]
                  by_cases hv2 : v = "pdf"
                  · rw [if_pos hv2]
                    exact ih rest2 libs dir false true o hlen2 (by omega)
                  · rw [if_neg hv2]
                    by_cases hv3 : v = "both"
                    · rw [if_pos hv3]
                      exact ih rest2 libs dir true true o hlen2 (by omega)
                    · rw [if_neg hv3]
                      simp
            · rw [if_neg h4]
              by_cases h5 : a = "--output" ∨ a = "-o"
              · rw [if_pos h5]
                match rest with
                | [] => simp
                | v :: rest2 =>
                  simp only []
                  have h2c : lib_flag_count rest2 ≤ lib_flag_count (v :: rest2) := by
                    rw [lib_flag_count_cons]
                    split <;> omega
                  have hlen2 : rest2.length ≤ n := by
                    have : rest2.length + 2 ≤ n + 1 := by simpa using hlen
                    omega
                  exact ih rest2 libs dir t p v hlen2 (by omega)
              · rw [if_neg h5]
                simp

set_option maxRecDepth 100000 in
/-- C10: `parse_arguments` allocates exactly `MAX_LIBS` = 100 pointer slots
for search terms and stores each `--lib` value without checking the running
count, so every store stays inside the allocation exactly when the command
line carries at most 100 `--lib`/`-l` occurrences; a 101st occurrence
writes out of bounds. -/
theorem claim_C10 :
    (∀ (dir_ok : String → Bool) (args : List String),
      lib_flag_count args ≤ MAX_LIBS →
      parse_arguments dir_ok args ≠ ParseResult.oob_write) ∧
    parse_arguments (fun _ => true) oob_args = ParseResult.oob_write := by
  constructor
  · intro dir_ok args h
    unfold parse_arguments
    by_cases h0 : args.length = 0
    · rw [if_pos h0]
      simp
    · rw [if_neg h0]
      exact parse_loop_no_oob dir_ok args.length args [] none true false "bldd_report"
        le_rfl (by simpa using h)
  · decide

theorem claim_C10_witness :
    lib_flag_count ["--lib", "c", "--dir", "/bin"] ≤ MAX_LIBS ∧
    parse_arguments (fun _ => true) ["--lib", "c", "--dir", "/bin"] ≠
      ParseResult.oob_write :=
  ⟨by decide, claim_C10.1 (fun _ => true) ["--lib", "c", "--dir", "/bin"] (by decide)⟩

set_option maxRecDepth 400000 in
/-- C1: at the library and architecture capacity bounds the code does not
drop the excess insert cleanly.  `find_or_add_library` on a full
architecture logs and returns `-1`, but `get_dependencies` passes the
unchecked `-1` straight to `add_executable`, whose `libraries[-1]` access
is out of bounds (modelled `none`): the `record` call hits undefined
behaviour instead of continuing with an unchanged store.  The same happens
one level up via `find_or_add_architecture` on a full store. -/
theorem claim_C1 :
    find_or_add_library stFull 0 "libzz.so" = some (stFull, -1) ∧
    add_executable stFull 0 (-1) "/bin/x" = none ∧
    record stFull "x86_64" "libzz.so" "/bin/x" = none ∧
    find_or_add_architecture stArchFull "riscv" = (stArchFull, -1) ∧
    find_or_add_library stArchFull (-1) "libc.so" = none ∧
    record stArchFull "riscv" "libc.so" "/bin/x" = none := by
  decide

end Bldd
